import Mathlib

/-!
# Verification of the Loan-Calculator finance engine

Shallow embedding of the numeric finance code of the repository
(`src/utils/calculations.js`, `src/pages/LoanCalculator.jsx`,
`src/pages/TimeValueCalculator.jsx`, `src/pages/AmortizationSchedule.jsx`,
and the APR calculator page).

Modelling conventions:

* JavaScript numbers are modelled as real numbers (`ℝ`).  Where a code path
  can produce a non-finite JavaScript value (`NaN`, `Infinity`,
  `-Infinity`) we model the value as `Option ℝ`, with `none` standing for
  "not a finite real"; the arithmetic operations (`jadd`, `jsub`, `jmul`,
  `jdiv`, `jlog`, ...) propagate `none` exactly as JavaScript arithmetic
  propagates non-finite values on the code paths exercised by the theorems
  below (in particular `x / 0` is `none`, `Math.log x` for `x ≤ 0` is
  `none`, and any comparison with a non-finite operand is `false`).
* The APR calculator parses its loan term with `parseInt` and only uses
  integer exponents, so it is embedded over `ℚ` and is fully executable.
* `throw new Error(...)` is modelled with `Except CalcError`.  The source
  only ever constructs one error (the input-validation error of
  `calculateMonthlyPayment`); the `domainError` constructor is modelled
  from the spec (§7 "DomainError"), which the code never raises — it is
  needed to state the error-handling claims.
* The numeric literal `0.01` of the source is the rational `1/100`.
* Calendar dates are not modelled; no claim refers to them.
-/

/-- Error kinds of the engine.  `invalidInput` is the
`throw new Error('Values must be positive')` of `calculateMonthlyPayment`.
`domainError` is modelled from the spec: the spec's §7 describes a
`DomainError` for mathematically inconsistent inputs, but no code path in
the repository constructs such an error. -/
inductive CalcError where
  | invalidInput : CalcError
  | domainError : CalcError
deriving DecidableEq

/-- Embedding of `calculateMonthlyPayment` from `src/utils/calculations.js`
(lines 10–27): validation `principal <= 0 || annualRate < 0 || years <= 0`
throws, `annualRate === 0` returns `principal / (years * 12)`, otherwise
the amortizing-annuity formula with `monthlyRate = annualRate / 100 / 12`
and `numberOfPayments = years * 12` (a real exponent, since `years` is an
arbitrary float). -/
noncomputable def calculateMonthlyPayment (principal annualRate years : ℝ) :
    Except CalcError ℝ :=
  if principal ≤ 0 ∨ annualRate < 0 ∨ years ≤ 0 then
    .error .invalidInput
  else if annualRate = 0 then
    .ok (principal / (years * 12))
  else
    let monthlyRate := annualRate / 100 / 12
    let numberOfPayments := years * 12
    .ok (principal * (monthlyRate * (1 + monthlyRate) ^ numberOfPayments) /
      ((1 + monthlyRate) ^ numberOfPayments - 1))

section C5

/-- **C5.** `calculateMonthlyPayment` raises the validation error exactly
when `principal ≤ 0`, `annualRate < 0` or `years ≤ 0`, and on every input
satisfying the constraint it returns a numeric value and no error. -/
theorem calculateMonthlyPayment_error_iff (principal annualRate years : ℝ) :
    (calculateMonthlyPayment principal annualRate years = .error .invalidInput ↔
      (principal ≤ 0 ∨ annualRate < 0 ∨ years ≤ 0)) ∧
    (¬ (principal ≤ 0 ∨ annualRate < 0 ∨ years ≤ 0) →
      ∃ v, calculateMonthlyPayment principal annualRate years = .ok v) := by
  unfold calculateMonthlyPayment
  constructor
  · constructor
    · intro h
      by_contra hc
      simp only [if_neg hc] at h
      split at h <;> simp_all
    · intro h
      simp [h]
  · intro h
    simp only [if_neg h]
    split <;> exact ⟨_, rfl⟩

/-- Witness for C5 at concrete inputs: `(-1, 5, 10)` violates the
constraint and errors, `(1000, 5, 10)` satisfies it and succeeds. -/
theorem calculateMonthlyPayment_error_iff_witness :
    calculateMonthlyPayment (-1) 5 10 = .error .invalidInput ∧
    ∃ v, calculateMonthlyPayment 1000 5 10 = .ok v :=
  ⟨(calculateMonthlyPayment_error_iff (-1) 5 10).1.mpr (by norm_num),
   (calculateMonthlyPayment_error_iff 1000 5 10).2 (by norm_num)⟩

end C5

section AnnuityFacts

/-- The compounding factor `(1 + mr) ^ n` (real exponent) exceeds `1` for a
positive monthly rate and a positive number of payments. -/
lemma one_lt_growth {mr n : ℝ} (hmr : 0 < mr) (hn : 0 < n) :
    1 < (1 + mr) ^ n :=
  (Real.one_lt_rpow_iff_of_pos (by linarith)).mpr (Or.inl ⟨by linarith, hn⟩)

/-- Core analytic fact behind C3: the total of the annuity payments strictly
exceeds the principal when the rate is positive, in the normalized form
`X - 1 < mr * n * X` with `X = (1 + mr) ^ n`. -/
lemma growth_sub_one_lt {mr n : ℝ} (hmr : 0 < mr) (hn : 0 < n) :
    (1 + mr) ^ n - 1 < mr * n * (1 + mr) ^ n := by
  set X : ℝ := (1 + mr) ^ n with hX
  have hX1 : 1 < X := one_lt_growth hmr hn
  rcases le_or_lt 1 (mr * n) with h | h
  · nlinarith
  · -- `mr * n < 1`: use `log (1+mr) < mr` and `1 - t ≤ exp (-t)`.
    have hlog : Real.log (1 + mr) < mr := by
      have := Real.log_lt_sub_one_of_pos (show (0:ℝ) < 1 + mr by linarith)
        (show (1:ℝ) + mr ≠ 1 by intro hc; nlinarith)
      linarith
    have hXexp : X < Real.exp (mr * n) := by
      rw [hX, Real.rpow_def_of_pos (show (0:ℝ) < 1 + mr by linarith)]
      exact Real.exp_lt_exp.mpr (by nlinarith)
    have hexp : Real.exp (mr * n) * (1 - mr * n) ≤ 1 := by
      have h1 : 1 - mr * n ≤ Real.exp (-(mr * n)) := by
        have := Real.add_one_le_exp (-(mr * n)); linarith
      have h2 : Real.exp (mr * n) * Real.exp (-(mr * n)) = 1 := by
        rw [← Real.exp_add]; simp
      calc Real.exp (mr * n) * (1 - mr * n)
          ≤ Real.exp (mr * n) * Real.exp (-(mr * n)) :=
            mul_le_mul_of_nonneg_left h1 (Real.exp_pos _).le
        _ = 1 := h2
    have hfinal : X * (1 - mr * n) < 1 := by
      calc X * (1 - mr * n) < Real.exp (mr * n) * (1 - mr * n) :=
            mul_lt_mul_of_pos_right hXexp (by linarith)
        _ ≤ 1 := hexp
    nlinarith

end AnnuityFacts

section C3

/-- **C3.** For `principal > 0`, `annualRate ≥ 0`, `years > 0`, the monthly
payment times `years * 12` is at least the principal, with equality exactly
when the rate is `0`. -/
theorem monthlyPayment_covers_principal (principal annualRate years pmt : ℝ)
    (hp : 0 < principal) (hr : 0 ≤ annualRate) (hy : 0 < years)
    (hok : calculateMonthlyPayment principal annualRate years = .ok pmt) :
    principal ≤ pmt * (years * 12) ∧
      (pmt * (years * 12) = principal ↔ annualRate = 0) := by
  have hcond : ¬ (principal ≤ 0 ∨ annualRate < 0 ∨ years ≤ 0) := by
    push_neg; exact ⟨hp, hr, hy⟩
  unfold calculateMonthlyPayment at hok
  rw [if_neg hcond] at hok
  have hy12 : (0:ℝ) < years * 12 := by linarith
  rcases eq_or_lt_of_le hr with hr0 | hrpos
  · -- zero-rate branch: payment is exactly `principal / (years * 12)`.
    rw [if_pos hr0.symm] at hok
    have hpmt : pmt = principal / (years * 12) := by
      simpa using hok.symm
    have heq : pmt * (years * 12) = principal := by
      rw [hpmt]; field_simp
    exact ⟨le_of_eq heq.symm, by simp [heq, hr0.symm]⟩
  · -- positive-rate branch: strict inequality.
    rw [if_neg (ne_of_gt hrpos)] at hok
    set mr : ℝ := annualRate / 100 / 12 with hmr_def
    have hmr : 0 < mr := by positivity
    set n : ℝ := years * 12 with hn_def
    set X : ℝ := (1 + mr) ^ n with hX_def
    have hX1 : 1 < X := one_lt_growth hmr hy12
    have hpmt : pmt = principal * (mr * X) / (X - 1) := by
      simpa using hok.symm
    have hkey : X - 1 < mr * n * X := growth_sub_one_lt hmr hy12
    have hlt : principal < pmt * n := by
      rw [hpmt, div_mul_eq_mul_div, lt_div_iff₀ (by linarith : (0:ℝ) < X - 1)]
      nlinarith
    refine ⟨le_of_lt hlt, ?_⟩
    constructor
    · intro heq; exact absurd heq (by linarith)
    · intro hc; exact absurd hc (ne_of_gt hrpos)

/-- Witness for C3 at the zero-rate scenario of the spec: principal `12000`,
rate `0`, one year gives a payment of exactly `1000`, whose total over the
12 months is exactly the principal. -/
theorem monthlyPayment_covers_principal_witness :
    calculateMonthlyPayment 12000 0 1 = .ok 1000 ∧
    (12000 : ℝ) ≤ 1000 * (1 * 12) ∧
      ((1000 : ℝ) * (1 * 12) = 12000 ↔ (0:ℝ) = 0) := by
  have hok : calculateMonthlyPayment 12000 0 1 = .ok 1000 := by
    unfold calculateMonthlyPayment
    norm_num
  exact ⟨hok, monthlyPayment_covers_principal 12000 0 1 1000 (by norm_num)
    (by norm_num) (by norm_num) hok⟩

end C3

section C4

/-- Embedding of the `'amount'` branch of `handleCalculate` in
`src/pages/LoanCalculator.jsx` (lines 102–127): `rate = interestRate / 100`,
`monthlyRate = rate / 12`, `numPayments = years * 12`;
`maxLoanAmount = payment * numPayments` when the monthly rate is `0`, else
`payment * ((1 - (1 + monthlyRate) ^ (-numPayments)) / monthlyRate)`. -/
noncomputable def maxLoanAmount (payment interestRatePct years : ℝ) : ℝ :=
  let rate := interestRatePct / 100
  let monthlyRate := rate / 12
  let numPayments := years * 12
  if monthlyRate = 0 then payment * numPayments
  else payment * ((1 - (1 + monthlyRate) ^ (-numPayments)) / monthlyRate)

/-- **C4.** Round-trip: feeding `calculateMonthlyPayment P r y` (for
`P > 0`, `r > 0`, `y > 0`) into the inverse annuity formula of the
`'amount'` branch recovers `P` within `1e-6` relative tolerance (in fact
exactly, in real arithmetic). -/
theorem loanAmount_roundtrip (principal annualRate years pmt : ℝ)
    (hp : 0 < principal) (hr : 0 < annualRate) (hy : 0 < years)
    (hok : calculateMonthlyPayment principal annualRate years = .ok pmt) :
    maxLoanAmount pmt annualRate years = principal ∧
      |maxLoanAmount pmt annualRate years - principal| ≤ 1/1000000 * principal := by
  have hcond : ¬ (principal ≤ 0 ∨ annualRate < 0 ∨ years ≤ 0) := by
    push_neg; exact ⟨hp, le_of_lt hr, hy⟩
  unfold calculateMonthlyPayment at hok
  rw [if_neg hcond, if_neg (ne_of_gt hr)] at hok
  set mr : ℝ := annualRate / 100 / 12 with hmr_def
  have hmr : 0 < mr := by positivity
  set n : ℝ := years * 12 with hn_def
  have hn : 0 < n := by rw [hn_def]; linarith
  set X : ℝ := (1 + mr) ^ n with hX_def
  have hX1 : 1 < X := one_lt_growth hmr hn
  have hXpos : 0 < X := by linarith
  have hpmt : pmt = principal * (mr * X) / (X - 1) := by
    simpa using hok.symm
  have hinv : (1 + mr) ^ (-n) = X⁻¹ := by
    rw [Real.rpow_neg (by linarith : (0:ℝ) ≤ 1 + mr), hX_def]
  have hmain : maxLoanAmount pmt annualRate years = principal := by
    have hXne : X ≠ 0 := ne_of_gt hXpos
    have hXm1 : X - 1 ≠ 0 := ne_of_gt (by linarith)
    have hmrne : mr ≠ 0 := ne_of_gt hmr
    have hcancel : X * (1 - X⁻¹) = X - 1 := by field_simp
    unfold maxLoanAmount
    rw [if_neg (by positivity : ¬ annualRate / 100 / 12 = 0)]
    show pmt * ((1 - (1 + mr) ^ (-n)) / mr) = principal
    rw [hinv, hpmt, div_mul_div_comm,
      show principal * (mr * X) * (1 - X⁻¹) = principal * mr * (X * (1 - X⁻¹)) by
        ring, hcancel]
    field_simp
    ring
  refine ⟨hmain, ?_⟩
  rw [hmain]
  simp
  positivity

/-- Witness for C4 at the spec's concrete scenario
(`P = 100000`, `r = 6`, `y = 30`). -/
theorem loanAmount_roundtrip_witness :
    maxLoanAmount
        (100000 * (6 / 100 / 12 * (1 + 6 / 100 / 12) ^ ((30:ℝ) * 12)) /
          ((1 + 6 / 100 / 12) ^ ((30:ℝ) * 12) - 1)) 6 30 = 100000 ∧
      |maxLoanAmount
        (100000 * (6 / 100 / 12 * (1 + 6 / 100 / 12) ^ ((30:ℝ) * 12)) /
          ((1 + 6 / 100 / 12) ^ ((30:ℝ) * 12) - 1)) 6 30 - 100000| ≤
        1/1000000 * 100000 :=
  loanAmount_roundtrip 100000 6 30 _ (by norm_num) (by norm_num)
    (by norm_num) (by unfold calculateMonthlyPayment; norm_num)

end C4

section Amortization

/-- One row of the amortization schedule produced by
`generateAmortizationSchedule` in `src/utils/calculations.js` (the pushed
object of lines 73–81; the `date` field is a calendar value and is not
modelled). -/
structure AmortRow where
  paymentNumber : ℕ
  monthlyPayment : ℝ
  principalPayment : ℝ
  interestPayment : ℝ
  remainingBalance : ℝ
  cumulativeInterest : ℝ

/-- The `while` loop of `generateAmortizationSchedule`
(`src/utils/calculations.js` lines 60–86), with the iteration-count half of
the guard (`paymentNumber <= years * 12 * 2`) expressed as fuel: the
counter is a positive integer, so `paymentNumber ≤ years * 12 * 2` holds
exactly for `paymentNumber ≤ ⌊years * 12 * 2⌋₊`, i.e. the body can run at
most `⌊years * 12 * 2⌋₊` times, one fuel unit per iteration.  Body (in
source order): `interestPayment = remainingBalance * monthlyRate`;
`cumulativeInterest += interestPayment`;
`principalPayment = min(monthlyPayment - interestPayment + extraPayment,
remainingBalance)`; `totalPayment = interestPayment + principalPayment`;
`remainingBalance -= principalPayment`; the pushed row clamps the stored
balance with `Math.max(0, remainingBalance)`. -/
noncomputable def amortAux (monthlyRate monthlyPayment extraPayment : ℝ) :
    ℕ → ℕ → ℝ → ℝ → List AmortRow
  | 0, _, _, _ => []
  | fuel + 1, paymentNumber, remainingBalance, cumInterest =>
    if 1/100 < remainingBalance then
      { paymentNumber := paymentNumber,
        monthlyPayment := remainingBalance * monthlyRate +
          min (monthlyPayment - remainingBalance * monthlyRate + extraPayment)
            remainingBalance,
        principalPayment :=
          min (monthlyPayment - remainingBalance * monthlyRate + extraPayment)
            remainingBalance,
        interestPayment := remainingBalance * monthlyRate,
        remainingBalance := max 0 (remainingBalance -
          min (monthlyPayment - remainingBalance * monthlyRate + extraPayment)
            remainingBalance),
        cumulativeInterest := cumInterest + remainingBalance * monthlyRate } ::
      amortAux monthlyRate monthlyPayment extraPayment fuel (paymentNumber + 1)
        (remainingBalance -
          min (monthlyPayment - remainingBalance * monthlyRate + extraPayment)
            remainingBalance)
        (cumInterest + remainingBalance * monthlyRate)
    else []

/-- Embedding of `generateAmortizationSchedule` from
`src/utils/calculations.js` (lines 50–89): `monthlyRate = annualRate / 100
/ 12`, the payment comes from `calculateMonthlyPayment` (whose exception
propagates), the loop starts at `paymentNumber = 1` with
`remainingBalance = principal` and `cumulativeInterest = 0`. -/
noncomputable def generateAmortizationSchedule
    (principal annualRate years extraPayment : ℝ) :
    Except CalcError (List AmortRow) :=
  (calculateMonthlyPayment principal annualRate years).map fun monthlyPayment =>
    amortAux (annualRate / 100 / 12) monthlyPayment extraPayment
      ⌊years * 12 * 2⌋₊ 1 principal 0

/-- Unfolding equation of `amortAux` for a successor fuel value. -/
lemma amortAux_succ (mr pmt e : ℝ) (fuel k : ℕ) (b ci : ℝ) :
    amortAux mr pmt e (fuel + 1) k b ci =
      if 1/100 < b then
        { paymentNumber := k,
          monthlyPayment := b * mr + min (pmt - b * mr + e) b,
          principalPayment := min (pmt - b * mr + e) b,
          interestPayment := b * mr,
          remainingBalance := max 0 (b - min (pmt - b * mr + e) b),
          cumulativeInterest := ci + b * mr } ::
        amortAux mr pmt e fuel (k + 1) (b - min (pmt - b * mr + e) b)
          (ci + b * mr)
      else [] := rfl

/-- The loop's balance update `b - min (pmt - b*mr + e) b` as one affine
step clamped at zero. -/
noncomputable def balStep (mr c b : ℝ) : ℝ := max ((1 + mr) * b - c) 0

lemma newBalance_eq_balStep (mr pmt e b : ℝ) :
    b - min (pmt - b * mr + e) b = balStep mr (pmt + e) b := by
  unfold balStep
  rcases le_total (pmt - b * mr + e) b with h | h
  · rw [min_eq_left h, max_eq_left (by linarith)]; ring
  · rw [min_eq_right h, max_eq_right (by linarith)]; ring

lemma balStep_nonneg (mr c b : ℝ) : 0 ≤ balStep mr c b := le_max_right _ _

lemma balStep_mono (mr c : ℝ) (hmr : 0 ≤ mr) {a b : ℝ} (hab : a ≤ b) :
    balStep mr c a ≤ balStep mr c b := by
  unfold balStep
  have : (1 + mr) * a ≤ (1 + mr) * b :=
    mul_le_mul_of_nonneg_left hab (by linarith)
  exact max_le_max (by linarith) le_rfl

end Amortization

section PaymentFacts

/-- Case analysis of a successful `calculateMonthlyPayment` call: the
validation passed, and the payment is the zero-rate quotient or the
annuity formula. -/
lemma calculateMonthlyPayment_ok_cases (principal annualRate years pmt : ℝ)
    (hok : calculateMonthlyPayment principal annualRate years = .ok pmt) :
    (0 < principal ∧ 0 ≤ annualRate ∧ 0 < years) ∧
      ((annualRate = 0 ∧ pmt = principal / (years * 12)) ∨
       (0 < annualRate ∧
         pmt = principal * (annualRate / 100 / 12 *
             (1 + annualRate / 100 / 12) ^ (years * 12)) /
           ((1 + annualRate / 100 / 12) ^ (years * 12) - 1))) := by
  unfold calculateMonthlyPayment at hok
  by_cases hcond : principal ≤ 0 ∨ annualRate < 0 ∨ years ≤ 0
  · rw [if_pos hcond] at hok; exact absurd hok (by simp)
  · rw [if_neg hcond] at hok
    push_neg at hcond
    obtain ⟨hp, hr, hy⟩ := hcond
    refine ⟨⟨hp, hr, hy⟩, ?_⟩
    by_cases hr0 : annualRate = 0
    · rw [if_pos hr0] at hok
      exact Or.inl ⟨hr0, by simpa using hok.symm⟩
    · rw [if_neg hr0] at hok
      exact Or.inr ⟨lt_of_le_of_ne hr (Ne.symm hr0),
        by simpa using hok.symm⟩

/-- A successful payment is positive. -/
lemma monthlyPayment_pos (principal annualRate years pmt : ℝ)
    (hok : calculateMonthlyPayment principal annualRate years = .ok pmt) :
    0 < pmt := by
  obtain ⟨⟨hp, hr, hy⟩, hcases⟩ :=
    calculateMonthlyPayment_ok_cases _ _ _ _ hok
  rcases hcases with ⟨_, hpmt⟩ | ⟨hrpos, hpmt⟩
  · rw [hpmt]; positivity
  · rw [hpmt]
    have hmr : 0 < annualRate / 100 / 12 := by positivity
    have hn : (0:ℝ) < years * 12 := by linarith
    have hX1 : 1 < (1 + annualRate / 100 / 12) ^ (years * 12) :=
      one_lt_growth hmr hn
    have : (0:ℝ) < (1 + annualRate / 100 / 12) ^ (years * 12) - 1 := by linarith
    positivity

/-- A successful payment covers the interest on the full principal:
`principal * monthlyRate ≤ pmt`. -/
lemma monthlyPayment_ge_interest (principal annualRate years pmt : ℝ)
    (hok : calculateMonthlyPayment principal annualRate years = .ok pmt) :
    principal * (annualRate / 100 / 12) ≤ pmt := by
  obtain ⟨⟨hp, hr, hy⟩, hcases⟩ :=
    calculateMonthlyPayment_ok_cases _ _ _ _ hok
  rcases hcases with ⟨hr0, hpmt⟩ | ⟨hrpos, hpmt⟩
  · rw [hr0, hpmt]
    have : (0:ℝ) < principal / (years * 12) := by positivity
    simpa using le_of_lt this
  · set mr : ℝ := annualRate / 100 / 12 with hmr_def
    have hmr : 0 < mr := by positivity
    have hn : (0:ℝ) < years * 12 := by linarith
    set X : ℝ := (1 + mr) ^ (years * 12) with hX_def
    have hX1 : 1 < X := one_lt_growth hmr hn
    rw [hpmt]
    rw [le_div_iff₀ (by linarith : (0:ℝ) < X - 1)]
    nlinarith

end PaymentFacts

section LinBal

/-- Affine comparison sequence for the amortization balance:
`linBal mr c P k` is the balance after `k` unclamped steps
`b ↦ (1 + mr) * b - c`. -/
noncomputable def linBal (mr c P : ℝ) : ℕ → ℝ
  | 0 => P
  | k + 1 => (1 + mr) * linBal mr c P k - c

/-- The clamped balance iterates are dominated by the affine sequence
(clamped at zero). -/
lemma iterate_balStep_le_linBal (mr c P : ℝ) (hmr : 0 ≤ mr) (hc : 0 ≤ c) :
    ∀ k, (balStep mr c)^[k] P ≤ max (linBal mr c P k) 0 := by
  intro k
  induction k with
  | zero => simp [linBal]
  | succ k ih =>
    rw [Function.iterate_succ_apply']
    have h1 : balStep mr c ((balStep mr c)^[k] P) ≤
        balStep mr c (max (linBal mr c P k) 0) := balStep_mono mr c hmr ih
    rcases le_or_lt 0 (linBal mr c P k) with hL | hL
    · rw [max_eq_left hL] at h1
      refine le_trans h1 ?_
      show max ((1 + mr) * linBal mr c P k - c) 0 ≤ max (linBal mr c P (k+1)) 0
      rw [show linBal mr c P (k+1) = (1 + mr) * linBal mr c P k - c from rfl]
    · rw [max_eq_right hL.le] at h1
      have h2 : balStep mr c 0 = 0 := by
        unfold balStep
        rw [mul_zero, zero_sub, max_eq_right (by linarith)]
      rw [h2] at h1
      exact le_trans h1 (le_max_right _ _)

/-- Closed form at rate zero: the affine sequence decreases by `c` each
step. -/
lemma linBal_zero_rate (c P : ℝ) : ∀ k, linBal 0 c P k = P - k * c := by
  intro k
  induction k with
  | zero => simp [linBal]
  | succ k ih =>
    rw [show linBal 0 c P (k+1) = (1 + 0) * linBal 0 c P k - c from rfl, ih]
    push_cast
    ring

/-- Closed form at a nonzero rate. -/
lemma linBal_closed (mr c P : ℝ) (hmr : mr ≠ 0) :
    ∀ k, linBal mr c P k = (1 + mr) ^ k * (P - c / mr) + c / mr := by
  intro k
  induction k with
  | zero => simp [linBal]
  | succ k ih =>
    rw [show linBal mr c P (k+1) = (1 + mr) * linBal mr c P k - c from rfl, ih,
      pow_succ]
    field_simp
    ring

/-- `n ≤ ⌊n * 2⌋₊` as soon as the floor is at least 1. -/
lemma le_floor_twice (n : ℝ) (hF : 1 ≤ ⌊n * 2⌋₊) : n ≤ (⌊n * 2⌋₊ : ℝ) := by
  rcases le_or_lt n 1 with h | h
  · calc n ≤ 1 := h
      _ ≤ (⌊n * 2⌋₊ : ℝ) := by exact_mod_cast hF
  · have h2 : n * 2 < ⌊n * 2⌋₊ + 1 := Nat.lt_floor_add_one _
    linarith

end LinBal

section AmortInvariants

/-- Loop invariant of `amortAux`: with a nonnegative monthly rate, a
nonnegative extra payment and a base payment covering the interest on the
cap `P0`, starting from a balance in `[0, P0]` every emitted balance lies
in `[0, current balance]` and the balance column is non-increasing. -/
lemma amortAux_balances (mr pmt e P0 : ℝ) (hmr : 0 ≤ mr) (he : 0 ≤ e)
    (hpmt : P0 * mr ≤ pmt) :
    ∀ (fuel k : ℕ) (b ci : ℝ), 0 ≤ b → b ≤ P0 →
      (∀ row ∈ amortAux mr pmt e fuel k b ci,
          0 ≤ row.remainingBalance ∧ row.remainingBalance ≤ b) ∧
      List.Chain' (fun a b => b.remainingBalance ≤ a.remainingBalance)
        (amortAux mr pmt e fuel k b ci) := by
  intro fuel
  induction fuel with
  | zero => intro k b ci _ _; simp [amortAux]
  | succ f ih =>
    intro k b ci hb0 hbP
    by_cases hb : 1/100 < b
    · rw [amortAux_succ, if_pos hb]
      set nb := b - min (pmt - b * mr + e) b with hnb_def
      have hbmr : b * mr ≤ P0 * mr := mul_le_mul_of_nonneg_right hbP hmr
      have hxpos : 0 ≤ pmt - b * mr + e := by linarith
      have hnb0 : 0 ≤ nb := by
        have := min_le_right (pmt - b * mr + e) b
        rw [hnb_def]; linarith
      have hnble : nb ≤ b := by
        have : 0 ≤ min (pmt - b * mr + e) b := le_min hxpos (by linarith)
        rw [hnb_def]; linarith
      have hmax : max 0 nb = nb := max_eq_right hnb0
      obtain ⟨ihmem, ihchain⟩ :=
        ih (k + 1) nb (ci + b * mr) hnb0 (le_trans hnble hbP)
      constructor
      · intro row hrow
        rcases List.mem_cons.mp hrow with hrow | hrow
        · rw [hrow]
          refine ⟨le_max_left _ _, ?_⟩
          show max 0 nb ≤ b
          rw [hmax]; exact hnble
        · obtain ⟨h1, h2⟩ := ihmem row hrow
          exact ⟨h1, le_trans h2 hnble⟩
      · rw [List.chain'_cons']
        refine ⟨?_, ihchain⟩
        intro y hy
        have hmem : y ∈ amortAux mr pmt e f (k + 1) nb (ci + b * mr) :=
          List.mem_of_mem_head? hy
        show y.remainingBalance ≤ max 0 nb
        rw [hmax]
        exact (ihmem y hmem).2
    · rw [amortAux_succ, if_neg hb]
      simp

/-- If the clamped balance iterate is at most `0.01` after `fuel` steps,
then the last emitted row (if any) has balance at most `0.01`. -/
lemma amortAux_getLast_le (mr pmt e : ℝ) :
    ∀ (fuel k : ℕ) (b ci : ℝ) (row : AmortRow),
      (balStep mr (pmt + e))^[fuel] b ≤ 1/100 →
      (amortAux mr pmt e fuel k b ci).getLast? = some row →
      row.remainingBalance ≤ 1/100 := by
  intro fuel
  induction fuel with
  | zero => intro k b ci row _ hlast; simp [amortAux] at hlast
  | succ f ih =>
    intro k b ci row hiter hlast
    by_cases hb : 1/100 < b
    · rw [amortAux_succ, if_pos hb] at hlast
      set nb := b - min (pmt - b * mr + e) b with hnb_def
      have hfb : balStep mr (pmt + e) b = nb :=
        (newBalance_eq_balStep mr pmt e b).symm
      have hiter' : (balStep mr (pmt + e))^[f] nb ≤ 1/100 := by
        rw [Function.iterate_succ_apply, hfb] at hiter; exact hiter
      cases hrest : amortAux mr pmt e f (k + 1) nb (ci + b * mr) with
      | nil =>
        rw [hrest] at hlast
        simp only [List.getLast?_singleton, Option.some.injEq] at hlast
        have hnb : nb ≤ 1/100 := by
          cases f with
          | zero => simpa using hiter'
          | succ f' =>
            by_contra hc
            push_neg at hc
            rw [amortAux_succ, if_pos hc] at hrest
            simp at hrest
        rw [← hlast]
        show max 0 nb ≤ 1/100
        exact max_le (by norm_num) hnb
      | cons x xs =>
        have hlast' :
            (amortAux mr pmt e f (k + 1) nb (ci + b * mr)).getLast? =
              some row := by
          rw [hrest]
          rw [hrest, List.getLast?_cons_cons] at hlast
          exact hlast
        exact ih (k + 1) nb (ci + b * mr) row hiter' hlast'
    · rw [amortAux_succ, if_neg hb] at hlast
      simp at hlast

/-- The schedule has at most `fuel` rows. -/
lemma amortAux_length_le (mr pmt e : ℝ) :
    ∀ (fuel k : ℕ) (b ci : ℝ),
      (amortAux mr pmt e fuel k b ci).length ≤ fuel := by
  intro fuel
  induction fuel with
  | zero => intro k b ci; simp [amortAux]
  | succ f ih =>
    intro k b ci
    rw [amortAux_succ]
    split
    · simpa using ih (k + 1) _ _
    · simp

/-- Every row except possibly the last is emitted with a balance still
above the `0.01` termination tolerance: the loop stops as soon as the
balance drops to the tolerance. -/
lemma amortAux_dropLast_gt (mr pmt e : ℝ) :
    ∀ (fuel k : ℕ) (b ci : ℝ),
      ∀ row ∈ (amortAux mr pmt e fuel k b ci).dropLast,
        1/100 < row.remainingBalance := by
  intro fuel
  induction fuel with
  | zero => intro k b ci row h; simp [amortAux] at h
  | succ f ih =>
    intro k b ci row hrow
    by_cases hb : 1/100 < b
    · rw [amortAux_succ, if_pos hb] at hrow
      set nb := b - min (pmt - b * mr + e) b with hnb_def
      cases hrest : amortAux mr pmt e f (k + 1) nb (ci + b * mr) with
      | nil => rw [hrest] at hrow; simp at hrow
      | cons x xs =>
        rw [hrest, List.dropLast_cons₂] at hrow
        rcases List.mem_cons.mp hrow with hrow | hrow
        · have hnb : 1/100 < nb := by
            cases f with
            | zero => simp [amortAux] at hrest
            | succ f' =>
              by_contra hc
              rw [amortAux_succ, if_neg hc] at hrest
              simp at hrest
          rw [hrow]
          show 1/100 < max 0 nb
          exact lt_max_of_lt_right hnb
        · have := ih (k + 1) nb (ci + b * mr) row
          rw [hrest] at this
          exact this hrow
    · rw [amortAux_succ, if_neg hb] at hrow
      simp at hrow

end AmortInvariants

section C1

/-- After the protective cap many steps the affine comparison balance is
non-positive, for any extra payment `e ≥ 0`. -/
lemma linBal_nonpos (principal annualRate years pmt e : ℝ)
    (hok : calculateMonthlyPayment principal annualRate years = .ok pmt)
    (he : 0 ≤ e) (F : ℕ) (hFn : years * 12 ≤ (F : ℝ)) :
    linBal (annualRate / 100 / 12) (pmt + e) principal F ≤ 0 := by
  obtain ⟨⟨hp, hr, hy⟩, hcases⟩ :=
    calculateMonthlyPayment_ok_cases _ _ _ _ hok
  have hn : (0:ℝ) < years * 12 := by linarith
  have hpmt_pos : 0 < pmt := monthlyPayment_pos _ _ _ _ hok
  have hF0 : (0:ℝ) ≤ (F : ℝ) := Nat.cast_nonneg F
  rcases hcases with ⟨hr0, hpmt⟩ | ⟨hrpos, hpmt⟩
  · have hmr_eq : annualRate / 100 / 12 = 0 := by rw [hr0]; norm_num
    rw [hmr_eq, linBal_zero_rate]
    have h1 : principal = (years * 12) * pmt := by
      rw [hpmt]; field_simp
    have h2 : (years * 12) * pmt ≤ (F : ℝ) * pmt :=
      mul_le_mul_of_nonneg_right hFn hpmt_pos.le
    have h3 : (F : ℝ) * pmt ≤ (F : ℝ) * (pmt + e) := by nlinarith
    linarith
  · set mr : ℝ := annualRate / 100 / 12 with hmr_def
    have hmr : 0 < mr := by rw [hmr_def]; positivity
    set X : ℝ := (1 + mr) ^ (years * 12) with hX_def
    have hX1 : 1 < X := one_lt_growth hmr hn
    rw [linBal_closed _ _ _ (ne_of_gt hmr) F]
    set XF : ℝ := (1 + mr) ^ F with hXF_def
    have hXle : X ≤ XF := by
      rw [hXF_def, ← Real.rpow_natCast (1 + mr) F, hX_def]
      exact (Real.rpow_le_rpow_left_iff (by linarith : (1:ℝ) < 1 + mr)).mpr hFn
    have hXF1 : (1:ℝ) ≤ XF := by linarith
    have hdiv : pmt / mr ≤ (pmt + e) / mr := by
      gcongr
      linarith
    have hmrne : mr ≠ 0 := ne_of_gt hmr
    have hXm1ne : X - 1 ≠ 0 := ne_of_gt (by linarith)
    have hpm : pmt / mr = principal * X / (X - 1) := by
      rw [hpmt]
      field_simp
      ring
    have hkey : XF * principal - (XF - 1) * (pmt / mr) ≤ 0 := by
      rw [hpm, sub_nonpos, ← mul_div_assoc,
        le_div_iff₀ (by linarith : (0:ℝ) < X - 1)]
      nlinarith [mul_le_mul_of_nonneg_left hXle hp.le]
    calc XF * (principal - (pmt + e) / mr) + (pmt + e) / mr
        = XF * principal - (XF - 1) * ((pmt + e) / mr) := by ring
      _ ≤ XF * principal - (XF - 1) * (pmt / mr) := by nlinarith
      _ ≤ 0 := hkey

/-- **C1 (amended).** For every schedule generated by
`generateAmortizationSchedule` of `src/utils/calculations.js` with a
nonnegative extra payment, the `remainingBalance` column is non-increasing
and the last entry (when the schedule is nonempty) has
`remainingBalance ≤ 0.01`.  (The original claim, without the sign
restriction on the extra payment, is refuted below.) -/
theorem amortSchedule_nonincreasing_last_small
    (principal annualRate years extraPayment : ℝ) (rows : List AmortRow)
    (he : 0 ≤ extraPayment)
    (hrows : generateAmortizationSchedule principal annualRate years
        extraPayment = .ok rows) :
    List.Chain' (fun a b => b.remainingBalance ≤ a.remainingBalance) rows ∧
    ∀ row, rows.getLast? = some row → row.remainingBalance ≤ 1/100 := by
  unfold generateAmortizationSchedule at hrows
  cases hok : calculateMonthlyPayment principal annualRate years with
  | error err => rw [hok] at hrows; simp [Except.map] at hrows
  | ok pmt =>
    rw [hok] at hrows
    have hrows' : rows = amortAux (annualRate / 100 / 12) pmt extraPayment
        ⌊years * 12 * 2⌋₊ 1 principal 0 := by
      simpa [Except.map] using hrows.symm
    obtain ⟨⟨hp, hr, hy⟩, _⟩ := calculateMonthlyPayment_ok_cases _ _ _ _ hok
    have hmr0 : (0:ℝ) ≤ annualRate / 100 / 12 := by positivity
    have hpmt_int : principal * (annualRate / 100 / 12) ≤ pmt :=
      monthlyPayment_ge_interest _ _ _ _ hok
    have hpmt_pos : 0 < pmt := monthlyPayment_pos _ _ _ _ hok
    have hchain := (amortAux_balances (annualRate / 100 / 12) pmt extraPayment
        principal hmr0 he hpmt_int ⌊years * 12 * 2⌋₊ 1 principal 0 hp.le
        le_rfl).2
    refine ⟨hrows' ▸ hchain, ?_⟩
    intro row hlast
    rcases Nat.eq_zero_or_pos ⌊years * 12 * 2⌋₊ with hF0 | hFpos
    · rw [hrows', hF0] at hlast
      simp [amortAux] at hlast
    · have hFn : years * 12 ≤ (⌊years * 12 * 2⌋₊ : ℝ) :=
        le_floor_twice (years * 12) hFpos
      have hlin := linBal_nonpos principal annualRate years pmt extraPayment
        hok he ⌊years * 12 * 2⌋₊ hFn
      have hiter : (balStep (annualRate / 100 / 12)
          (pmt + extraPayment))^[⌊years * 12 * 2⌋₊] principal ≤ 1/100 := by
        have h1 := iterate_balStep_le_linBal (annualRate / 100 / 12)
          (pmt + extraPayment) principal hmr0 (by linarith) ⌊years * 12 * 2⌋₊
        rw [max_eq_right hlin] at h1
        linarith
      exact amortAux_getLast_le (annualRate / 100 / 12) pmt extraPayment
        ⌊years * 12 * 2⌋₊ 1 principal 0 row hiter (hrows' ▸ hlast)

end C1

section ScheduleEvaluations

/-- The single-row schedule produced by the small concrete run below. -/
def smallSchedule : List AmortRow :=
  [{ paymentNumber := 1, monthlyPayment := 100, principalPayment := 100,
     interestPayment := 0, remainingBalance := 0, cumulativeInterest := 0 }]

/-- Concrete evaluation: principal `100`, rate `0`, one month, no extra
payment gives a single row that retires the balance exactly. -/
lemma genSchedule_small_eval :
    generateAmortizationSchedule 100 0 (1/12) 0 = .ok smallSchedule := by
  unfold smallSchedule
  have hcalc : calculateMonthlyPayment 100 0 (1/12) = .ok 100 := by
    unfold calculateMonthlyPayment
    norm_num
  unfold generateAmortizationSchedule
  rw [hcalc]
  simp only [Except.map]
  have hfloor : ⌊(1:ℝ)/12 * 12 * 2⌋₊ = 2 := by
    rw [show ((1:ℝ)/12 * 12 * 2) = ((2:ℕ):ℝ) by norm_num, Nat.floor_natCast]
  rw [hfloor, show (2:ℕ) = 1 + 1 from rfl, amortAux_succ,
    if_pos (by norm_num : (1:ℝ)/100 < 100)]
  rw [show (1:ℕ) = 0 + 1 from rfl, amortAux_succ,
    if_neg (by norm_num [min_def] : ¬ ((1:ℝ)/100 <
      100 - min (100 - 100 * (0/100/12) + 0) 100))]
  norm_num [min_def, max_def]

/-- With a pathological negative extra payment so large that
`pmt + extra ≤ 0`, the zero-rate loop never reduces the balance and only
the fuel cap stops it: the schedule has exactly `fuel` rows. -/
lemma amortAux_length_of_nonpos_payment (pmt e : ℝ) (hc : pmt + e ≤ 0) :
    ∀ (fuel k : ℕ) (b ci : ℝ), 1/100 < b →
      (amortAux 0 pmt e fuel k b ci).length = fuel := by
  intro fuel
  induction fuel with
  | zero => intro k b ci _; simp [amortAux]
  | succ f ih =>
    intro k b ci hb
    rw [amortAux_succ, if_pos hb]
    have hpe : pmt - b * 0 + e = pmt + e := by ring
    have hmin : min (pmt - b * 0 + e) b = pmt - b * 0 + e :=
      min_eq_left (by rw [hpe]; linarith)
    have hnb : 1/100 < b - min (pmt - b * 0 + e) b := by
      rw [hmin, hpe]; linarith
    simp only [List.length_cons]
    rw [ih (k + 1) _ _ hnb]

/-- Concrete evaluation used by the counterexamples: principal `1000`,
rate `0`, one year, extra payment `-1000`. -/
lemma genSchedule_cex_eval :
    generateAmortizationSchedule 1000 0 1 (-1000) =
      .ok (amortAux 0 (1000 / (1 * 12)) (-1000) 24 1 1000 0) := by
  have hcalc : calculateMonthlyPayment 1000 0 1 = .ok (1000 / (1 * 12)) := by
    unfold calculateMonthlyPayment
    norm_num
  unfold generateAmortizationSchedule
  rw [hcalc]
  simp only [Except.map]
  have hfloor : ⌊(1:ℝ) * 12 * 2⌋₊ = 24 := by
    rw [show ((1:ℝ) * 12 * 2) = ((24:ℕ):ℝ) by norm_num, Nat.floor_natCast]
  rw [hfloor, show ((0:ℝ)/100/12) = 0 by norm_num]

end ScheduleEvaluations

/-- **C1 witness.**  The amended invariant, instantiated at the concrete
schedule for principal `100`, rate `0`, term `1/12` years, extra payment
`0`. -/
theorem amortSchedule_nonincreasing_last_small_witness :
    List.Chain' (fun a b : AmortRow => b.remainingBalance ≤ a.remainingBalance)
      smallSchedule ∧
    ∀ row, smallSchedule.getLast? = some row →
      row.remainingBalance ≤ 1/100 :=
  amortSchedule_nonincreasing_last_small 100 0 (1/12) 0 _ (by norm_num)
    genSchedule_small_eval

/-- **C1 counterexample.**  As stated over all generated schedules the
claim is false: with extra payment `-1000` (principal `1000`, rate `0`,
one year) the balance strictly grows from row to row, so the schedule is
not non-increasing (and its last entry is far above the tolerance). -/
theorem amortSchedule_nonincreasing_cex :
    ¬ (∀ (principal annualRate years extraPayment : ℝ)
        (rows : List AmortRow),
        generateAmortizationSchedule principal annualRate years extraPayment
          = .ok rows →
        List.Chain' (fun a b : AmortRow =>
          b.remainingBalance ≤ a.remainingBalance) rows ∧
        ∀ row, rows.getLast? = some row → row.remainingBalance ≤ 1/100) := by
  intro h
  obtain ⟨hchain, -⟩ := h 1000 0 1 (-1000) _ genSchedule_cex_eval
  rw [show (24:ℕ) = 22 + 1 + 1 from by norm_num] at hchain
  rw [amortAux_succ, if_pos (by norm_num : (1:ℝ)/100 < 1000)] at hchain
  rw [amortAux_succ, if_pos (by norm_num [min_def] : (1:ℝ)/100 <
    1000 - min (1000 / (1 * 12) - 1000 * 0 + -1000) 1000)] at hchain
  have hrel := (List.chain'_cons.mp hchain).1
  norm_num [min_def, max_def] at hrel

section C8

/-- **C8 (amended).** The loop of `generateAmortizationSchedule`
(`src/utils/calculations.js`) stops once the balance is `≤ 0.01` — every
row except possibly the last is emitted with balance above the tolerance —
or once the payment counter exceeds the protective cap
`years * 12 * 2` (twice `totalPeriods`, not `totalPeriods` as claimed);
consequently the generator terminates with at most `years * 12 * 2`
entries. -/
theorem amortSchedule_length_within_double_cap
    (principal annualRate years extraPayment : ℝ) (rows : List AmortRow)
    (hrows : generateAmortizationSchedule principal annualRate years
        extraPayment = .ok rows) :
    (rows.length : ℝ) ≤ years * 12 * 2 ∧
    ∀ row ∈ rows.dropLast, 1/100 < row.remainingBalance := by
  unfold generateAmortizationSchedule at hrows
  cases hok : calculateMonthlyPayment principal annualRate years with
  | error err => rw [hok] at hrows; simp [Except.map] at hrows
  | ok pmt =>
    rw [hok] at hrows
    have hrows' : rows = amortAux (annualRate / 100 / 12) pmt extraPayment
        ⌊years * 12 * 2⌋₊ 1 principal 0 := by
      simpa [Except.map] using hrows.symm
    obtain ⟨⟨hp, hr, hy⟩, _⟩ := calculateMonthlyPayment_ok_cases _ _ _ _ hok
    constructor
    · have h1 : rows.length ≤ ⌊years * 12 * 2⌋₊ := by
        rw [hrows']
        exact amortAux_length_le _ _ _ _ _ _ _
      have h2 : (⌊years * 12 * 2⌋₊ : ℝ) ≤ years * 12 * 2 :=
        Nat.floor_le (by nlinarith)
      calc (rows.length : ℝ) ≤ (⌊years * 12 * 2⌋₊ : ℝ) := by exact_mod_cast h1
        _ ≤ years * 12 * 2 := h2
    · intro row hrow
      rw [hrows'] at hrow
      exact amortAux_dropLast_gt _ _ _ _ _ _ _ row hrow

/-- **C8 witness.**  The amended bound instantiated at the concrete
one-row schedule. -/
theorem amortSchedule_length_within_double_cap_witness :
    ((smallSchedule.length) : ℝ) ≤ 1/12 * 12 * 2 ∧
    ∀ row ∈ smallSchedule.dropLast, 1/100 < row.remainingBalance :=
  amortSchedule_length_within_double_cap 100 0 (1/12) 0 _
    genSchedule_small_eval

/-- **C8 counterexample.**  The cap in the code is `years * 12 * 2`, not
`totalPeriods = years * 12`: the schedule for principal `1000`, rate `0`,
one year, extra payment `-1000` has 24 rows, exceeding
`totalPeriods = 12`. -/
theorem amortSchedule_length_cap_cex :
    ¬ (∀ (principal annualRate years extraPayment : ℝ)
        (rows : List AmortRow),
        generateAmortizationSchedule principal annualRate years extraPayment
          = .ok rows → (rows.length : ℝ) ≤ years * 12) := by
  intro h
  have hlen := h 1000 0 1 (-1000) _ genSchedule_cex_eval
  rw [amortAux_length_of_nonpos_payment (1000 / (1 * 12)) (-1000)
    (by norm_num) 24 1 1000 0 (by norm_num)] at hlen
  norm_num at hlen

end C8

section JSNum

/-- JavaScript-number arithmetic on code paths that can go non-finite:
`some x` is a finite number, `none` stands for `NaN`/`±Infinity`.  The
operations below propagate `none` exactly as the JavaScript operations
propagate non-finite values on the code paths exercised here. -/
def jbin (f : ℝ → ℝ → ℝ) : Option ℝ → Option ℝ → Option ℝ
  | some a, some b => some (f a b)
  | _, _ => none

def jadd : Option ℝ → Option ℝ → Option ℝ := jbin (· + ·)

def jsub : Option ℝ → Option ℝ → Option ℝ := jbin (· - ·)

def jmul : Option ℝ → Option ℝ → Option ℝ := jbin (· * ·)

/-- Division: `x / 0` is `±Infinity` (or `NaN` for `0 / 0`), i.e. `none`. -/
noncomputable def jdiv : Option ℝ → Option ℝ → Option ℝ
  | some a, some b => if b = 0 then none else some (a / b)
  | _, _ => none

/-- `Math.log`: `log 0 = -Infinity`, `log x = NaN` for `x < 0`. -/
noncomputable def jlog : Option ℝ → Option ℝ
  | some a => if 0 < a then some (Real.log a) else none
  | none => none

def jneg : Option ℝ → Option ℝ := Option.map (fun x => -x)

/-- `Math.pow` with a real exponent; every base reached by the theorems
below is positive (or the argument is already non-finite). -/
noncomputable def jpow : Option ℝ → ℝ → Option ℝ
  | some a, y => some (a ^ y)
  | none, _ => none

/-- The comparison `Math.abs u < t`: `false` whenever `u` is non-finite
(`NaN` comparisons are `false`, and `|±Infinity|` is never below a finite
tolerance). -/
noncomputable def jabsLt : Option ℝ → ℝ → Bool
  | some x, t => decide (|x| < t)
  | none, _ => false

@[simp] lemma jadd_none_right (a : Option ℝ) : jadd a none = none := by
  cases a <;> rfl

@[simp] lemma jadd_none_left (a : Option ℝ) : jadd none a = none := rfl

@[simp] lemma jsub_none_right (a : Option ℝ) : jsub a none = none := by
  cases a <;> rfl

@[simp] lemma jsub_none_left (a : Option ℝ) : jsub none a = none := rfl

@[simp] lemma jmul_none_right (a : Option ℝ) : jmul a none = none := by
  cases a <;> rfl

@[simp] lemma jmul_none_left (a : Option ℝ) : jmul none a = none := rfl

@[simp] lemma jdiv_none_right (a : Option ℝ) : jdiv a none = none := by
  cases a <;> rfl

@[simp] lemma jdiv_none_left (a : Option ℝ) : jdiv none a = none := rfl

@[simp] lemma jlog_none : jlog none = none := rfl

@[simp] lemma jneg_none : jneg none = none := rfl

@[simp] lemma jpow_none (y : ℝ) : jpow none y = none := rfl

@[simp] lemma jabsLt_none (t : ℝ) : jabsLt none t = false := rfl

@[simp] lemma jadd_some (a b : ℝ) : jadd (some a) (some b) = some (a + b) := rfl

@[simp] lemma jsub_some (a b : ℝ) : jsub (some a) (some b) = some (a - b) := rfl

@[simp] lemma jmul_some (a b : ℝ) : jmul (some a) (some b) = some (a * b) := rfl

@[simp] lemma jpow_some (a y : ℝ) : jpow (some a) y = some (a ^ y) := rfl

@[simp] lemma jneg_some (a : ℝ) : jneg (some a) = some (-a) := rfl

lemma jdiv_some_zero (a : ℝ) : jdiv (some a) (some 0) = none := by
  unfold jdiv; simp

lemma jdiv_some_of_ne (a b : ℝ) (hb : b ≠ 0) :
    jdiv (some a) (some b) = some (a / b) := by
  unfold jdiv; simp [hb]

lemma jlog_some_of_nonpos (a : ℝ) (ha : a ≤ 0) : jlog (some a) = none := by
  unfold jlog; simp [not_lt.mpr ha]

end JSNum

section C2

/-- Embedding of the `'term'` branch of `handleCalculate` in
`src/pages/LoanCalculator.jsx` (lines 128–153): `rate = interestRate /
100`, `monthlyRate = rate / 12`; for a zero monthly rate the term is
`principal / payment`, otherwise `-Math.log(1 - principal * monthlyRate /
payment) / Math.log(1 + monthlyRate)`.  The branch contains no `throw`, so
it always returns a value (`.ok`); non-finite results are `none`. -/
noncomputable def loanTermBranch (principal payment interestRatePct : ℝ) :
    Except CalcError (Option ℝ) :=
  let rate := interestRatePct / 100
  let monthlyRate := rate / 12
  .ok (if monthlyRate = 0 then jdiv (some principal) (some payment)
    else jdiv
      (jneg (jlog (jsub (some 1)
        (jdiv (jmul (some principal) (some monthlyRate)) (some payment)))))
      (jlog (some (1 + monthlyRate))))

/-- Evaluation at principal `1000`, payment `5`, rate `12%`: the payment is
below the monthly interest `10`, the logarithm argument is negative, and
the branch returns a non-finite value — not an error. -/
lemma loanTermBranch_cex_eval : loanTermBranch 1000 5 12 = .ok none := by
  simp only [loanTermBranch]
  rw [if_neg (by norm_num : ¬ ((12:ℝ)/100/12 = 0))]
  rw [jmul_some, jdiv_some_of_ne _ _ (by norm_num : (5:ℝ) ≠ 0), jsub_some,
    jlog_some_of_nonpos _ (by norm_num), jneg_none, jdiv_none_left]

/-- **C2 (amended).** When the payment is positive but at most
`principal * monthlyRate` (so the loan can never amortize), the `'term'`
computation does not fail with a `DomainError`: the logarithm argument is
`≤ 0`, JavaScript's `Math.log` yields a non-finite value, and the branch
returns that non-finite value as its result. -/
theorem loanTerm_insufficient_payment_yields_nonfinite
    (principal payment interestRatePct : ℝ)
    (hpay : 0 < payment) (hr : 0 < interestRatePct)
    (hins : payment ≤ principal * (interestRatePct / 100 / 12)) :
    loanTermBranch principal payment interestRatePct = .ok none := by
  simp only [loanTermBranch]
  have hmr : 0 < interestRatePct / 100 / 12 := by positivity
  rw [if_neg (ne_of_gt hmr)]
  have harg : 1 - principal * (interestRatePct / 100 / 12) / payment ≤ 0 := by
    rw [sub_nonpos, le_div_iff₀ hpay]
    linarith
  rw [jmul_some, jdiv_some_of_ne _ _ (ne_of_gt hpay), jsub_some,
    jlog_some_of_nonpos _ harg, jneg_none, jdiv_none_left]

/-- **C2 witness.** -/
theorem loanTerm_insufficient_payment_yields_nonfinite_witness :
    loanTermBranch 1000 5 12 = .ok none :=
  loanTerm_insufficient_payment_yields_nonfinite 1000 5 12 (by norm_num)
    (by norm_num) (by norm_num)

/-- **C2 counterexample.** At principal `1000`, payment `5`, rate `12%`
(the payment is at most `principal * periodicRate = 10`), the `'term'`
computation returns `.ok` of a non-finite value; it does not fail with
`DomainError` (or any error). -/
theorem loanTerm_no_domainError_cex :
    loanTermBranch 1000 5 12 = .ok none ∧
    ∀ e : CalcError, loanTermBranch 1000 5 12 ≠ .error e := by
  refine ⟨loanTermBranch_cex_eval, ?_⟩
  intro e h
  rw [loanTermBranch_cex_eval] at h
  exact absurd h (by simp)

end C2

section C7

/-- The Newton-Raphson loop of the `'rate'` case of `calculate` in
`src/pages/TimeValueCalculator.jsx` (lines 150–163): up to 100 iterations
of `f = pv * pow(1+r, nper) - fv`, `df = pv * nper * pow(1+r, nper-1)`,
`newR = r - f / df`, breaking (and keeping the previous iterate) when
`|newR - r| < 0.0001`.  There is no guard on `df`. -/
noncomputable def tvmRateLoop (pv fv nper : ℝ) : ℕ → Option ℝ → Option ℝ
  | 0, r => r
  | fuel + 1, r =>
    let f := jsub (jmul (some pv) (jpow (jadd (some 1) r) nper)) (some fv)
    let df := jmul (jmul (some pv) (some nper)) (jpow (jadd (some 1) r) (nper - 1))
    let newR := jsub r (jdiv f df)
    if jabsLt (jsub newR r) (1/10000) then r
    else tvmRateLoop pv fv nper fuel newR

/-- The `'rate'` case of `calculate`: initial guess `0.1`, result
`r * 100`.  The case contains no `throw`, so it always produces a value
(`.ok`); a non-finite value is `none`. -/
noncomputable def tvmRateBranch (pv fv nper : ℝ) : Except CalcError (Option ℝ) :=
  .ok (jmul (tvmRateLoop pv fv nper 100 (some (1/10))) (some 100))

lemma tvmRateLoop_succ (pv fv nper : ℝ) (fuel : ℕ) (r : Option ℝ) :
    tvmRateLoop pv fv nper (fuel + 1) r =
      if jabsLt (jsub (jsub r (jdiv
          (jsub (jmul (some pv) (jpow (jadd (some 1) r) nper)) (some fv))
          (jmul (jmul (some pv) (some nper))
            (jpow (jadd (some 1) r) (nper - 1))))) r) (1/10000) then r
      else tvmRateLoop pv fv nper fuel
        (jsub r (jdiv
          (jsub (jmul (some pv) (jpow (jadd (some 1) r) nper)) (some fv))
          (jmul (jmul (some pv) (some nper))
            (jpow (jadd (some 1) r) (nper - 1))))) := rfl

/-- Once the iterate is non-finite it stays non-finite. -/
lemma tvmRateLoop_none (pv fv nper : ℝ) :
    ∀ fuel, tvmRateLoop pv fv nper fuel none = none := by
  intro fuel
  induction fuel with
  | zero => rfl
  | succ f ih =>
    rw [tvmRateLoop_succ]
    simp only [jadd_none_right, jpow_none, jmul_none_right, jsub_none_left,
      jdiv_none_left, jsub_none_right, jabsLt_none]
    simpa using ih

/-- With `pv = 0` the Newton derivative is `0` at the initial iterate; the
division produces a non-finite value which then propagates to the final
result.  No error of any kind is signalled. -/
lemma tvmRateBranch_pv_zero (fv nper : ℝ) :
    tvmRateBranch 0 fv nper = .ok none := by
  unfold tvmRateBranch
  rw [show (100:ℕ) = 99 + 1 from rfl, tvmRateLoop_succ]
  have hdf : jmul (jmul (some (0:ℝ)) (some nper))
      (jpow (jadd (some 1) (some (1/10))) (nper - 1)) =
      some (0 * nper * (1 + 1/10) ^ (nper - 1)) := rfl
  have hdf0 : (0:ℝ) * nper * (1 + 1/10) ^ (nper - 1) = 0 := by ring
  rw [hdf, hdf0]
  have hf : jsub (jmul (some (0:ℝ)) (jpow (jadd (some 1) (some (1/10))) nper))
      (some fv) = some (0 * (1 + 1/10) ^ nper - fv) := rfl
  rw [hf, jdiv_some_zero, jsub_none_right, jsub_none_left, jabsLt_none]
  rw [if_neg (by simp), tvmRateLoop_none, jmul_none_left]

/-- **C7 (amended).** The Newton-Raphson rate solver of the TVM calculator
has no guard against a zero derivative: whenever `pv = 0` the derivative
is `0` at the initial iterate, the quotient `f / df` is non-finite, and
the solver returns a propagated non-finite value instead of failing with a
`DomainError`.  (The `'rate'` branch of `LoanCalculator.jsx` has the same
unguarded structure.) -/
theorem newtonRate_unguarded_derivative (fv nper : ℝ) :
    tvmRateBranch 0 fv nper = .ok none :=
  tvmRateBranch_pv_zero fv nper

/-- **C7 counterexample.** At `pv = 0`, `fv = 1000`, `nper = 10` the
derivative is `0` at the current iterate, yet the solver does not fail
with a `DomainError`: it returns a (non-finite) value. -/
theorem newtonRate_no_domainError_cex :
    tvmRateBranch 0 1000 10 = .ok none ∧
    ∀ e : CalcError, tvmRateBranch 0 1000 10 ≠ .error e := by
  refine ⟨tvmRateBranch_pv_zero 1000 10, ?_⟩
  intro e h
  rw [tvmRateBranch_pv_zero 1000 10] at h
  exact absurd h (by simp)

end C7

section C9

/-- The five calculation kinds of the TVM calculator. -/
inductive TvmType where
  | pv | fv | pmt | rate | nper

set_option linter.unusedVariables false in
/-- Embedding of `calculate` from `src/pages/TimeValueCalculator.jsx`
(lines 84–171).  The parsed inputs are `pv`, `fv`, `pmt`, the percentage
interest rate (converted as `rate = parseFloat(interestRate) / 100`, line
90), `nper`, the parsed `compounding` frequency (line 92) and the
payment-timing flag (`type = 1` for beginning-of-period, line 93).  The
parsed `compounding` value is never used by any of the five cases — this
is what C9 is about. -/
noncomputable def tvmCalculate (calculationType : TvmType)
    (pv fv pmt interestRatePct nper compounding : ℝ) (beginning : Bool) :
    Option ℝ :=
  let rate := interestRatePct / 100
  let ty : ℝ := if beginning then 1 else 0
  match calculationType with
  | .pv =>
    if pmt = 0 then jdiv (some fv) (jpow (some (1 + rate)) nper)
    else jadd
      (jmul (jmul (some pmt)
        (jdiv (jsub (some 1) (jpow (some (1 + rate)) (-nper))) (some rate)))
        (some (1 + rate * ty)))
      (jdiv (some fv) (jpow (some (1 + rate)) nper))
  | .fv =>
    if pmt = 0 then jmul (some pv) (jpow (some (1 + rate)) nper)
    else jadd
      (jmul (jmul (some pmt)
        (jdiv (jsub (jpow (some (1 + rate)) nper) (some 1)) (some rate)))
        (some (1 + rate * ty)))
      (jmul (some pv) (jpow (some (1 + rate)) nper))
  | .pmt =>
    if fv = 0 then jdiv (jmul (some pv) (some rate))
      (jsub (some 1) (jpow (some (1 + rate)) (-nper)))
    else jdiv (jmul (some fv) (some rate))
      (jsub (jpow (some (1 + rate)) nper) (some 1))
  | .rate => jmul (tvmRateLoop pv fv nper 100 (some (1/10))) (some 100)
  | .nper => jdiv (jlog (jdiv (some fv) (some pv))) (jlog (some (1 + rate)))

/-- **C9 (amended).** The TVM calculator converts the percentage input
only by `÷ 100`; the `compoundingFrequency` input is parsed but never
used, so every formula runs on the annual fractional rate and two calls
differing only in `compoundingFrequency` return identical results.  In
particular `fv` with `pv = 100`, rate `100%`, one period is
`100 * (1 + 100/100) ^ 1 = 200`. -/
theorem tvm_compounding_ignored :
    (∀ (ct : TvmType) (pv fv pmt rPct nper c₁ c₂ : ℝ) (b : Bool),
      tvmCalculate ct pv fv pmt rPct nper c₁ b =
        tvmCalculate ct pv fv pmt rPct nper c₂ b) ∧
    tvmCalculate .fv 100 0 0 100 1 12 false =
      some (100 * (1 + 100/100) ^ (1:ℝ)) ∧
    tvmCalculate .fv 100 0 0 100 1 12 false = some 200 := by
  refine ⟨?_, ?_, ?_⟩
  · intro ct pv fv pmt rPct nper c₁ c₂ b
    cases ct <;> rfl
  · simp only [tvmCalculate]
    rw [if_pos trivial, jpow_some, jmul_some]
  · simp only [tvmCalculate]
    rw [if_pos trivial, jpow_some, jmul_some]
    norm_num [Real.rpow_one]

/-- **C9 counterexample.** Two calls differing only in
`compoundingFrequency` (1 vs 12) give the same result, and that result is
`pv * (1 + rate/100) ^ nper`, not the value the claimed conversion
`rate/100/compoundingFrequency` would give: the claim's formula at
frequency 12 yields `100 * (1 + 100/100/12) ≈ 108.33 ≠ 200`. -/
theorem tvm_rate_conversion_cex :
    tvmCalculate .fv 100 0 0 100 1 1 false =
      tvmCalculate .fv 100 0 0 100 1 12 false ∧
    tvmCalculate .fv 100 0 0 100 1 12 false = some 200 ∧
    some ((200:ℝ)) ≠ some ((100:ℝ) * (1 + 100/100/12) ^ ((1:ℝ))) := by
  refine ⟨rfl, ?_, ?_⟩
  · simp only [tvmCalculate]
    rw [if_pos trivial, jpow_some, jmul_some]
    norm_num [Real.rpow_one]
  · norm_num [Real.rpow_one]

end C9

section C10

/-- Embedding of `calculateRequiredMonthlyContribution` from
`src/utils/calculations.js` (lines 137–160). -/
noncomputable def calculateRequiredMonthlyContribution
    (targetAmount currentAmount annualRate years : ℝ) : ℝ :=
  let monthlyRate := annualRate / 100 / 12
  let periods := years * 12
  let futureValueCurrent := currentAmount * (1 + monthlyRate) ^ periods
  let remainingAmount := targetAmount - futureValueCurrent
  if remainingAmount ≤ 0 then 0
  else if monthlyRate = 0 then remainingAmount / periods
  else remainingAmount / (((1 + monthlyRate) ^ periods - 1) / monthlyRate)

/-- **C10.** For `annualRate ≥ 0` and `years > 0`:
`calculateRequiredMonthlyContribution` returns exactly `0` when the
current amount compounded at the monthly rate over the full period already
covers the target (remaining amount `≤ 0`), and otherwise returns a
strictly positive contribution — the remaining amount divided by the
number of periods at rate `0`, else divided by the annuity factor. -/
theorem requiredContribution_zero_or_pos
    (targetAmount currentAmount annualRate years : ℝ)
    (hr : 0 ≤ annualRate) (hy : 0 < years) :
    (targetAmount - currentAmount *
        (1 + annualRate / 100 / 12) ^ (years * 12) ≤ 0 →
      calculateRequiredMonthlyContribution targetAmount currentAmount
        annualRate years = 0) ∧
    (0 < targetAmount - currentAmount *
        (1 + annualRate / 100 / 12) ^ (years * 12) →
      0 < calculateRequiredMonthlyContribution targetAmount currentAmount
          annualRate years ∧
      calculateRequiredMonthlyContribution targetAmount currentAmount
          annualRate years =
        (if annualRate = 0 then
          (targetAmount - currentAmount *
            (1 + annualRate / 100 / 12) ^ (years * 12)) / (years * 12)
        else
          (targetAmount - currentAmount *
            (1 + annualRate / 100 / 12) ^ (years * 12)) /
            (((1 + annualRate / 100 / 12) ^ (years * 12) - 1) /
              (annualRate / 100 / 12)))) := by
  have hn : (0:ℝ) < years * 12 := by linarith
  have hmr_iff : annualRate / 100 / 12 = 0 ↔ annualRate = 0 := by
    constructor
    · intro h
      field_simp at h
      exact h
    · intro h; rw [h]; norm_num
  constructor
  · intro h
    simp only [calculateRequiredMonthlyContribution]
    rw [if_pos h]
  · intro h
    simp only [calculateRequiredMonthlyContribution]
    rw [if_neg (not_le.mpr h)]
    by_cases hr0 : annualRate = 0
    · rw [if_pos (hmr_iff.mpr hr0), if_pos hr0]
      exact ⟨div_pos h hn, rfl⟩
    · have hmr : 0 < annualRate / 100 / 12 := by
        rcases lt_of_le_of_ne hr (Ne.symm hr0) with h'
        positivity
      rw [if_neg (ne_of_gt hmr), if_neg hr0]
      have hX1 : 1 < (1 + annualRate / 100 / 12) ^ (years * 12) :=
        one_lt_growth hmr hn
      have hfac : 0 < ((1 + annualRate / 100 / 12) ^ (years * 12) - 1) /
          (annualRate / 100 / 12) := div_pos (by linarith) hmr
      exact ⟨div_pos h hfac, rfl⟩

/-- **C10 witness.** Sufficiency case (`target 100`, `current 200`, rate
`0`, one year) gives `0`; deficit case (`target 1000`, `current 0`) gives
a strictly positive contribution. -/
theorem requiredContribution_zero_or_pos_witness :
    calculateRequiredMonthlyContribution 100 200 0 1 = 0 ∧
    0 < calculateRequiredMonthlyContribution 1000 0 0 1 := by
  constructor
  · exact (requiredContribution_zero_or_pos 100 200 0 1 (by norm_num)
      (by norm_num)).1 (by norm_num [Real.one_rpow])
  · exact ((requiredContribution_zero_or_pos 1000 0 0 1 (by norm_num)
      (by norm_num)).2 (by norm_num [Real.one_rpow])).1

end C10

section C6

/-- Result object of `calculateAPR` in the APR calculator page
(`src/unnamed/part_001`, lines 102–110). -/
structure APRResult where
  monthlyPayment : ℚ
  apr : ℚ
  totalInterest : ℚ
  totalFees : ℚ
  totalCost : ℚ
  netLoanAmount : ℚ
  effectiveRate : ℚ

/-- The present value computed inside the APR search loop
(`src/unnamed/part_001`, line 84):
`monthlyPayment * ((1 - Math.pow(1 + monthlyAPR, -numPayments)) /
monthlyAPR)`.  The loan term is parsed with `parseInt`, so the exponent is
the integer `numPayments` and `pow` with a negated integer exponent is the
reciprocal of the positive power (exact for the nonzero bases reached
here). -/
def aprPV (monthlyPayment monthlyAPR : ℚ) (numPayments : ℕ) : ℚ :=
  monthlyPayment * ((1 - ((1 + monthlyAPR) ^ numPayments)⁻¹) / monthlyAPR)

/-- The fixed-step search loop of `calculateAPR` (lines 77–97): up to 100
iterations; stop when `|presentValue - netLoanAmount| < 0.0001`, otherwise
nudge `apr` by `+0.0001` when the present value is still above the net
amount and by `-0.0001` otherwise. -/
def aprLoop (monthlyPayment netLoanAmount : ℚ) (numPayments : ℕ) :
    ℕ → ℚ → ℚ
  | 0, apr => apr
  | fuel + 1, apr =>
    if |aprPV monthlyPayment (apr / 12) numPayments - netLoanAmount| <
        1/10000 then apr
    else if netLoanAmount < aprPV monthlyPayment (apr / 12) numPayments then
      aprLoop monthlyPayment netLoanAmount numPayments fuel (apr + 1/10000)
    else
      aprLoop monthlyPayment netLoanAmount numPayments fuel (apr - 1/10000)

lemma aprLoop_succ (pmt net : ℚ) (n fuel : ℕ) (apr : ℚ) :
    aprLoop pmt net n (fuel + 1) apr =
      if |aprPV pmt (apr / 12) n - net| < 1/10000 then apr
      else if net < aprPV pmt (apr / 12) n then
        aprLoop pmt net n fuel (apr + 1/10000)
      else aprLoop pmt net n fuel (apr - 1/10000) := rfl

/-- Embedding of `calculateAPR` from the APR calculator page
(`src/unnamed/part_001`, lines 57–111): `rate = interestRate / 100`,
`monthlyRate = rate / 12`, `numPayments = term * 12` (`term` parsed with
`parseInt`), annuity monthly payment (no zero-rate special case),
`totalFees = fees + points * principal / 100`,
`netLoanAmount = principal - totalFees`, then the search loop starting at
`apr = rate`. -/
def calculateAPR (principal interestRatePct : ℚ) (term : ℕ)
    (fees points : ℚ) : APRResult :=
  let rate := interestRatePct / 100
  let monthlyRate := rate / 12
  let numPayments := term * 12
  let monthlyPayment := principal *
      (monthlyRate * (1 + monthlyRate) ^ numPayments) /
      ((1 + monthlyRate) ^ numPayments - 1)
  let totalFees := fees + points * principal / 100
  let netLoanAmount := principal - totalFees
  let apr := aprLoop monthlyPayment netLoanAmount numPayments 100 rate
  let totalInterest := monthlyPayment * (numPayments : ℚ) - principal
  let totalCost := principal + totalInterest + totalFees
  { monthlyPayment := monthlyPayment, apr := apr * 100,
    totalInterest := totalInterest, totalFees := totalFees,
    totalCost := totalCost, netLoanAmount := netLoanAmount,
    effectiveRate := apr * 100 }

/-- Exact annuity identity: the present value of the scheduled payments at
the nominal monthly rate is the principal. -/
lemma aprPV_annuity (p mr : ℚ) (n : ℕ) (hmr : mr ≠ 0) (hb : (1 + mr) ≠ 0)
    (hX : (1 + mr) ^ n ≠ 1) :
    aprPV (p * (mr * (1 + mr) ^ n) / ((1 + mr) ^ n - 1)) mr n = p := by
  unfold aprPV
  have hXne : (1 + mr) ^ n ≠ 0 := pow_ne_zero n hb
  have hXm1 : (1 + mr) ^ n - 1 ≠ 0 := sub_ne_zero.mpr hX
  rw [div_mul_div_comm, div_eq_iff (mul_ne_zero hXm1 hmr)]
  field_simp
  ring

/-- Invariant of the APR search for the concrete C6 scenario: once the
iterate has the form `5/100 + j/10000` with `j ≥ 1` and the present value
at `5.01%` is still above the net amount, the final result stays at least
`5.01%`. -/
lemma aprLoop_stays_above (pmt net : ℚ) (n : ℕ)
    (hstep : net < aprPV pmt (501/10000/12) n) :
    ∀ (fuel j : ℕ) (apr : ℚ), 1 ≤ j → apr = 5/100 + (j:ℚ)/10000 →
      501/10000 ≤ aprLoop pmt net n fuel apr := by
  intro fuel
  induction fuel with
  | zero =>
    intro j apr hj happr
    have hjq : (1:ℚ) ≤ (j:ℚ) := by exact_mod_cast hj
    show (501:ℚ)/10000 ≤ apr
    rw [happr]
    linarith
  | succ f ih =>
    intro j apr hj happr
    rw [aprLoop_succ]
    split_ifs with h1 h2
    · have hjq : (1:ℚ) ≤ (j:ℚ) := by exact_mod_cast hj
      rw [happr]
      linarith
    · exact ih (j + 1) _ (by omega) (by rw [happr]; push_cast; ring)
    · match j, hj with
      | 1, _ =>
        exfalso
        rw [happr] at h2
        have heq : (((5:ℚ)/100 + ((1:ℕ):ℚ)/10000)/12) = 501/10000/12 := by
          norm_num
        rw [heq] at h2
        exact h2 hstep
      | (j'' + 2), _ =>
        exact ih (j'' + 1) _ (by omega) (by rw [happr]; push_cast; ring)

/-- **C6.** The APR engine computes
`totalFees = fees + points * principal / 100` and
`netLoanAmount = principal - totalFees`; and in the concrete scenario
(principal `100000`, nominal rate `5`, `20` years, fees `2000`, one
point) it returns `netLoanAmount = 97000` and an APR strictly greater
than the nominal `5`%. -/
theorem calculateAPR_fees_and_apr :
    (∀ (principal interestRatePct : ℚ) (term : ℕ) (fees points : ℚ),
      (calculateAPR principal interestRatePct term fees points).totalFees =
        fees + points * principal / 100 ∧
      (calculateAPR principal interestRatePct term fees
          points).netLoanAmount =
        principal - (fees + points * principal / 100)) ∧
    (calculateAPR 100000 5 20 2000 1).netLoanAmount = 97000 ∧
    5 < (calculateAPR 100000 5 20 2000 1).apr := by
  refine ⟨?_, ?_, ?_⟩
  · intro principal interestRatePct term fees points
    exact ⟨rfl, rfl⟩
  · simp only [calculateAPR]
    norm_num
  · simp only [calculateAPR]
    have h0 : aprPV
        (100000 * (5/100/12 * (1 + 5/100/12) ^ (20*12 : ℕ)) /
          ((1 + 5/100/12) ^ (20*12 : ℕ) - 1)) (5/100/12) (20*12) = 100000 := by
      refine aprPV_annuity 100000 (5/100/12) (20*12) (by norm_num)
        (by norm_num) (ne_of_gt (one_lt_pow₀ (by norm_num) (by norm_num)))
    have hstep : (100000:ℚ) - (2000 + 1 * 100000 / 100) < aprPV
        (100000 * (5/100/12 * (1 + 5/100/12) ^ (20*12 : ℕ)) /
          ((1 + 5/100/12) ^ (20*12 : ℕ) - 1)) (501/10000/12) (20*12) := by
      norm_num [aprPV]
    have hloop : (501:ℚ)/10000 ≤ aprLoop
        (100000 * (5/100/12 * (1 + 5/100/12) ^ (20*12 : ℕ)) /
          ((1 + 5/100/12) ^ (20*12 : ℕ) - 1))
        (100000 - (2000 + 1 * 100000 / 100)) (20*12) 100 (5/100) := by
      rw [show (100:ℕ) = 99 + 1 from rfl, aprLoop_succ]
      rw [if_neg (by rw [h0]; norm_num), if_pos (by rw [h0]; norm_num)]
      exact aprLoop_stays_above _ _ _ (by exact_mod_cast hstep) 99 1 _
        (le_refl 1) (by push_cast; ring)
    show (5:ℚ) < aprLoop _ _ _ 100 (5/100) * 100
    nlinarith [hloop]

end C6
